import Mathlib

/-!
Shallow embedding of `src/IDS.py` (Email System IDS).

Modelling conventions:
* Python dicts (preserving insertion order, unique keys) are association
  lists `List (String × α)`; `dictGet` is `d[k]` returning `Option`
  (Python raises `KeyError` on a missing key; the embedding is only
  analysed where the key is present).
* Python floats are `ℚ` (the numeric operations used — `+ - * / abs round
  int max min` — are exact on the decimal inputs involved); `np.std`'s
  square root lands in `ℝ`.
* `np.random.normal(mean, std_dev)` is modelled by an injected sample
  stream `draw : ℕ → String → ℚ` giving the raw Gaussian draw for each
  (day, event); the statistical profile enters only through the
  distribution of that draw.
* Python `int(x)` truncates toward zero: `truncQ`.
* Python `round(x, 2)` rounds to the nearest hundredth with ties to even:
  `round2` via `roundHalfEven`.
-/

/-- One record of `events` as built by `parse_events`:
`{"type": event_type, "min": …, "max": …, "weight": int(weight)}`.
The `type` field is the raw string; the code treats `"D"` as discrete and
anything else as continuous. -/
structure EventDef where
  type : String
  min : Option ℚ
  max : Option ℚ
  weight : ℤ
  deriving DecidableEq, Inhabited, Repr

/-- One record of `stats` as consumed by the numeric pipeline:
`{"mean": float(mean), "std_dev": float(std_dev)}`. -/
structure Stat where
  mean : ℚ
  std_dev : ℚ
  deriving DecidableEq, Inhabited, Repr

/-- A dynamically-typed `mean` field as inspected by
`validate_configuration`'s `isinstance(stat_data["mean"], (int, float))`
check: either a number or some non-numeric Python value. -/
inductive MeanVal where
  | num (q : ℚ)
  | nonNum
  deriving DecidableEq, Inhabited, Repr

/-- A stats record as `validate_configuration` receives it, with the
dynamically-typed `mean`.  (`parse_stats` itself always produces
`MeanVal.num` because it applies `float(mean)`.) -/
structure StatEntry where
  mean : MeanVal
  std_dev : ℚ
  deriving DecidableEq, Inhabited, Repr

/-- Python `d[k]` on an association list (insertion-ordered dict). -/
def dictGet {α : Type} (l : List (String × α)) (k : String) : Option α :=
  match l with
  | [] => none
  | p :: rest => if p.1 = k then some p.2 else dictGet rest k

/-- `events[event]["weight"]` totalised with a junk default (Python would
raise `KeyError`; all analysed runs have the key present). -/
def weightOf (events : List (String × EventDef)) (e : String) : ℤ :=
  ((dictGet events e).getD default).weight

/-- Python `int(x)` on a float: truncation toward zero. -/
def truncQ (q : ℚ) : ℤ :=
  if 0 ≤ q then ⌊q⌋ else ⌈q⌉

/-- Round to the nearest integer, ties to even — Python's `round` on an
exactly-representable value. -/
def roundHalfEven (x : ℚ) : ℤ :=
  if x - ⌊x⌋ < 1/2 then ⌊x⌋
  else if 1/2 < x - ⌊x⌋ then ⌊x⌋ + 1
  else if ⌊x⌋ % 2 = 0 then ⌊x⌋ else ⌊x⌋ + 1

/-- Python `round(x, 2)`. -/
def round2 (x : ℚ) : ℚ :=
  ((roundHalfEven (100 * x) : ℚ)) / 100

/-- The discrete branch's clamp:
`max(value, int(min))` then `min(value, int(max))`, each applied only when
the bound is set. -/
def intClamp (params : EventDef) (v : ℤ) : ℤ :=
  let v1 := match params.min with
    | some m => max v (truncQ m)
    | none => v
  match params.max with
  | some M => min v1 (truncQ M)
  | none => v1

/-- The continuous branch's clamp: `max(value, min)` then
`min(value, max)`, each applied only when the bound is set. -/
def ratClamp (params : EventDef) (v : ℚ) : ℚ :=
  let v1 := match params.min with
    | some m => max v m
    | none => v
  match params.max with
  | some M => min v1 M
  | none => v1

/-- One event's daily value in `generate_daily_events`, given the raw
Gaussian sample `s` (the value of `np.random.normal(...)`):
discrete events truncate the sample to an int and clamp with int-cast
bounds; continuous events round the sample to 2 decimals and clamp with
the bounds as-is. -/
def genValue (params : EventDef) (s : ℚ) : ℚ :=
  if params.type = "D" then
    ((intClamp params (truncQ s) : ℤ) : ℚ)
  else
    ratClamp params (round2 s)

/-- `generate_daily_events(events, stats, days, phase)` minus the I/O:
one day-record per day, each mapping every event name to its generated
value.  The Gaussian draw for (day, event) is `draw day event`. -/
def generate_daily_events (events : List (String × EventDef))
    (draw : ℕ → String → ℚ) (days : ℕ) : List (List (String × ℚ)) :=
  (List.range days).map fun day =>
    events.map fun p => (p.1, genValue p.2 (draw day p.1))

/-- `calculate_statistics(log_data)`: per event of the first day-record,
the mean (`np.mean`) and the population standard deviation (`np.std`,
which divides by N) of that event's values across all days. -/
structure Summary where
  mean : ℝ
  std_dev : ℝ

/-- `[day[event] for day in log_data]` (missing keys would be a Python
`KeyError`; totalised with 0, unused in the analysed runs). -/
def eventValues (log_data : List (List (String × ℚ))) (e : String) : List ℚ :=
  log_data.map fun day => (dictGet day e).getD 0

noncomputable def calculate_statistics
    (log_data : List (List (String × ℚ))) : List (String × Summary) :=
  (log_data.headI).map fun p =>
    let vals := eventValues log_data p.1
    let m : ℝ := ((vals.map fun v => (v : ℝ)).sum) / vals.length
    (p.1, { mean := m
          , std_dev := Real.sqrt (((vals.map fun v => ((v : ℝ) - m) ^ 2).sum) / vals.length) })

/-- `threshold = 2 * sum(event["weight"] for event in events.values())`. -/
def thresholdOf (events : List (String × EventDef)) : ℤ :=
  2 * (events.map fun p => p.2.weight).sum

/-- One per-event term of the anomaly counter:
`abs(value - mean) / std_dev * weight`. -/
def devWeighted (b : String → Stat) (events : List (String × EventDef))
    (p : String × ℚ) : ℚ :=
  |p.2 - (b p.1).mean| / (b p.1).std_dev * ((weightOf events p.1 : ℤ) : ℚ)

/-- The `alert_data` dict built for one day by `detect_anomalies`. -/
structure Verdict where
  day : ℕ
  anomaly_counter : ℚ
  threshold : ℚ
  alert : Bool
  status : String
  deviations : List (String × ℚ)
  deriving DecidableEq, Repr

/-- The body of `detect_anomalies`' day loop: the counter is the running
sum of weighted deviations; the stored `anomaly_counter` is
`round(anomaly_counter, 2)`; the alert compares the unrounded counter. -/
def mkVerdict (b : String → Stat) (events : List (String × EventDef))
    (day : ℕ) (data : List (String × ℚ)) : Verdict :=
  let counter : ℚ := data.foldl (fun acc p => acc + devWeighted b events p) 0
  { day := day
  , anomaly_counter := round2 counter
  , threshold := ((thresholdOf events : ℤ) : ℚ)
  , alert := decide (((thresholdOf events : ℤ) : ℚ) ≤ counter)
  , status := if ((thresholdOf events : ℤ) : ℚ) ≤ counter then "ALERT" else "OK"
  , deviations := data.map fun p => (p.1, devWeighted b events p) }

/-- `for day, data in enumerate(log_data, 1)`. -/
def detectFrom (b : String → Stat) (events : List (String × EventDef)) :
    ℕ → List (List (String × ℚ)) → List Verdict
  | _, [] => []
  | day, data :: rest => mkVerdict b events day data :: detectFrom b events (day + 1) rest

/-- `detect_anomalies(baseline_stats, events, log_data)` minus printing:
one `Verdict` per day, days numbered from 1. -/
def detect_anomalies (b : String → Stat) (events : List (String × EventDef))
    (log_data : List (List (String × ℚ))) : List Verdict :=
  detectFrom b events 1 log_data

/-- The error raised by `validate_configuration`, carrying the
symmetric difference `set(events.keys()) ^ set(stats.keys())`. -/
inductive ConfigError where
  | mismatch (missing : Finset String)
  deriving DecidableEq

/-- `set(events.keys())`. -/
def eventKeySet (events : List (String × EventDef)) : Finset String :=
  (events.map Prod.fst).toFinset

/-- `set(stats.keys())`. -/
def statKeySet (stats : List (String × StatEntry)) : Finset String :=
  (stats.map Prod.fst).toFinset

/-- `stats[event_name]` totalised (the caller only reaches it after the
key-set equality check, so the key is present). -/
def statOf (stats : List (String × StatEntry)) (name : String) : StatEntry :=
  (dictGet stats name).getD default

/-- `validate_configuration(events, stats)`: raises on differing key sets,
naming the symmetric difference; otherwise returns the list of printed
warnings — one per Discrete event whose mean is not an `int`/`float`. -/
def validate_configuration (events : List (String × EventDef))
    (stats : List (String × StatEntry)) : Except ConfigError (List String) :=
  if eventKeySet events ≠ statKeySet stats then
    .error (.mismatch ((eventKeySet events \ statKeySet stats) ∪
                       (statKeySet stats \ eventKeySet events)))
  else
    .ok (events.filterMap fun p =>
      if p.2.type = "D" ∧ (statOf stats p.1).mean = MeanVal.nonNum then
        some ("Warning: Discrete event " ++ p.1 ++ " has non-integer mean")
      else none)

/-- One interaction with `run_monitoring_phase`'s prompt: the user types
`quit`, or supplies a file whose `parse_stats` raises, or supplies a file
that parses to a stats dict (bundled with the Gaussian draw stream the
round's `generate_daily_events` call will consume). -/
inductive Submission where
  | quit
  | parseFail
  | profile (stats : List (String × StatEntry)) (draw : ℕ → String → ℚ)

/-- The observable outcome of one monitoring-loop iteration: the `except`
branch's error report, or a round's list of verdicts. -/
inductive MonOutcome where
  | failed
  | round (alerts : List Verdict)
  deriving DecidableEq

/-- The orchestrator's state after consuming a (finite) input script:
still at the prompt awaiting input, or terminated by `quit`. -/
inductive Phase where
  | Monitoring
  | Terminated
  deriving DecidableEq, Repr

/-- A stats dict with numeric means, as the generation/scoring pipeline
consumes it (`parse_stats` guarantees numeric fields). -/
def toStat (st : StatEntry) : Stat :=
  { mean := match st.mean with | .num q => q | .nonNum => 0
  , std_dev := st.std_dev }

/-- `run_monitoring_phase(events, baseline_stats, days)` minus the I/O:
the `while True` loop over an input script.  `quit` breaks; any exception
inside the `try` (a parse failure or a `validate_configuration` error)
is caught, reported, and the loop continues with the next input; a valid
profile runs one generate-and-score round. -/
def run_monitoring_phase (events : List (String × EventDef))
    (baseline : String → Stat) (days : ℕ) :
    List Submission → List MonOutcome × Phase
  | [] => ([], .Monitoring)
  | .quit :: _ => ([], .Terminated)
  | .parseFail :: rest =>
    let r := run_monitoring_phase events baseline days rest
    (.failed :: r.1, r.2)
  | .profile stats draw :: rest =>
    let r := run_monitoring_phase events baseline days rest
    match validate_configuration events stats with
    | .error _ => (.failed :: r.1, r.2)
    | .ok _ =>
      (.round (detect_anomalies baseline events (generate_daily_events events draw days)) :: r.1,
       r.2)

/-- A submission that fails to parse or to validate. -/
def subFails (events : List (String × EventDef)) : Submission → Bool
  | .quit => false
  | .parseFail => true
  | .profile stats _ =>
    match validate_configuration events stats with
    | .error _ => true
    | .ok _ => false

/-! ### Helper lemmas -/

theorem foldl_add_eq (f : String × ℚ → ℚ) (l : List (String × ℚ)) (c : ℚ) :
    l.foldl (fun a p => a + f p) c = c + (l.map f).sum := by
  induction l generalizing c with
  | nil => simp
  | cons x xs ih => simp [ih]; ring

theorem roundHalfEven_ge_floor (x : ℚ) : ⌊x⌋ ≤ roundHalfEven x := by
  unfold roundHalfEven
  split_ifs <;> omega

/-- Rounding to two decimals never drops a value below an integer bound it
was at or above. -/
theorem round2_int_le (n : ℤ) (x : ℚ) (h : (n : ℚ) ≤ x) : (n : ℚ) ≤ round2 x := by
  have h1 : ((100 * n : ℤ) : ℚ) ≤ 100 * x := by push_cast; linarith
  have h2 : (100 * n : ℤ) ≤ ⌊(100 : ℚ) * x⌋ := Int.le_floor.mpr h1
  have h3 : (100 * n : ℤ) ≤ roundHalfEven (100 * x) :=
    le_trans h2 (roundHalfEven_ge_floor _)
  have h4 : ((100 * n : ℤ) : ℚ) ≤ (roundHalfEven (100 * x) : ℚ) := by exact_mod_cast h3
  unfold round2
  rw [le_div_iff₀ (by norm_num : (0:ℚ) < 100)]
  push_cast at h4 ⊢
  linarith

theorem truncQ_mono {a b : ℚ} (h : a ≤ b) : truncQ a ≤ truncQ b := by
  unfold truncQ
  split_ifs with h1 h2 h2
  · exact Int.floor_mono h
  · linarith
  · exact le_trans (Int.ceil_le.mpr (by exact_mod_cast le_of_not_le h1))
      (Int.le_floor.mpr (by exact_mod_cast h2))
  · exact Int.ceil_mono h

/-- `truncQ` is truncation toward zero: its magnitude is the floor of the
magnitude (so it never rounds away from zero). -/
theorem truncQ_abs (q : ℚ) : |truncQ q| = ⌊|q|⌋ := by
  unfold truncQ
  split_ifs with h
  · rw [abs_of_nonneg (Int.floor_nonneg.mpr h), abs_of_nonneg h]
  · have hq : q ≤ 0 := le_of_not_le h
    have hc : ⌈q⌉ ≤ 0 := Int.ceil_le.mpr (by exact_mod_cast hq)
    rw [abs_of_nonpos hc, abs_of_nonpos hq, Int.floor_neg]

theorem dictGet_nodup_eq {α : Type} {l : List (String × α)} {a : String} {b : α}
    (hnd : (l.map Prod.fst).Nodup) (hmem : (a, b) ∈ l) : dictGet l a = some b := by
  induction l with
  | nil => cases hmem
  | cons x xs ih =>
    rcases List.mem_cons.mp hmem with h | h
    · subst h; simp [dictGet]
    · have hx : x.1 ∉ xs.map Prod.fst := (List.nodup_cons.mp hnd).1
      have hne : x.1 ≠ a := by
        intro he
        exact hx (he ▸ List.mem_map.mpr ⟨(a, b), h, rfl⟩)
      simp only [dictGet, if_neg hne]
      exact ih (List.nodup_cons.mp hnd).2 h

/-- In a dict with unique keys, a key determines its value. -/
theorem nodup_keys_eq {α : Type} {l : List (String × α)} {a : String} {b c : α}
    (hnd : (l.map Prod.fst).Nodup) (hb : (a, b) ∈ l) (hc : (a, c) ∈ l) : b = c := by
  have h1 := dictGet_nodup_eq hnd hb
  have h2 := dictGet_nodup_eq hnd hc
  rw [h1] at h2
  exact Option.some_inj.mp h2

/-- Every entry of every generated day-record is the generated value of
one of the configured events on one of the simulated days. -/
theorem mem_generate {events : List (String × EventDef)} {draw : ℕ → String → ℚ}
    {days : ℕ} {day : List (String × ℚ)} {x : String × ℚ}
    (hday : day ∈ generate_daily_events events draw days) (hx : x ∈ day) :
    ∃ i < days, ∃ p ∈ events, x = (p.1, genValue p.2 (draw i p.1)) := by
  rcases List.mem_map.mp hday with ⟨i, hi, rfl⟩
  rcases List.mem_map.mp hx with ⟨p, hp, rfl⟩
  exact ⟨i, List.mem_range.mp hi, p, hp, rfl⟩

/-- Every verdict of `detect_anomalies` is `mkVerdict` of one of the days. -/
theorem mem_detectFrom {b : String → Stat} {events : List (String × EventDef)}
    {d : ℕ} {l : List (List (String × ℚ))} {v : Verdict}
    (hv : v ∈ detectFrom b events d l) :
    ∃ day, ∃ data ∈ l, v = mkVerdict b events day data := by
  induction l generalizing d with
  | nil => cases hv
  | cons x xs ih =>
    rcases List.mem_cons.mp hv with h | h
    · exact ⟨d, x, List.mem_cons_self x xs, h⟩
    · rcases ih h with ⟨day, data, hdata, hvd⟩
      exact ⟨day, data, List.mem_cons_of_mem x hdata, hvd⟩

/-- The accumulated anomaly counter of one day. -/
theorem mkVerdict_counter (b : String → Stat) (events : List (String × EventDef))
    (data : List (String × ℚ)) :
    data.foldl (fun acc p => acc + devWeighted b events p) 0 =
      (data.map (devWeighted b events)).sum := by
  rw [foldl_add_eq]; ring

/-! ### Claim theorems -/

/-- C2: for every event set, every verdict produced by `detect_anomalies`
carries the threshold `2 * sum(weights)`, whatever the baseline profile
and whatever day records are scored — the threshold depends on the
`EventDef` weights alone. -/
theorem c2_threshold_invariant :
    ∀ (b : String → Stat) (events : List (String × EventDef))
      (log_data : List (List (String × ℚ))),
      ∀ v ∈ detect_anomalies b events log_data,
        v.threshold = ((2 * (events.map fun p => p.2.weight).sum : ℤ) : ℚ) := by
  intro b events log_data v hv
  rcases mem_detectFrom hv with ⟨day, data, _, rfl⟩
  simp [mkVerdict, thresholdOf]

def evD : EventDef := { type := "D", min := some 0, max := some 10, weight := 2 }

def evC : EventDef := { type := "C", min := some 0, max := some 5, weight := 1 }

def eventsW : List (String × EventDef) := [("A", evD), ("B", evC)]

def baseW : String → Stat := fun _ => { mean := 0, std_dev := 1 }

theorem c2_threshold_invariant_witness :
    (mkVerdict baseW eventsW 1 [("A", 1), ("B", 1)]).threshold =
      ((2 * (eventsW.map fun p => p.2.weight).sum : ℤ) : ℚ) :=
  c2_threshold_invariant baseW eventsW [[("A", 1), ("B", 1)]] _
    (by simp [detect_anomalies, detectFrom])

/-- C7: `validate_configuration` succeeds exactly when the event and
stats key sets agree, and on disagreement raises the error naming the
symmetric difference of the two key sets. -/
theorem c7_validate_mismatch :
    ∀ (events : List (String × EventDef)) (stats : List (String × StatEntry)),
      ((∃ w, validate_configuration events stats = .ok w) ↔
        eventKeySet events = statKeySet stats) ∧
      (eventKeySet events ≠ statKeySet stats →
        validate_configuration events stats =
          .error (.mismatch ((eventKeySet events \ statKeySet stats) ∪
                             (statKeySet stats \ eventKeySet events)))) := by
  intro events stats
  unfold validate_configuration
  by_cases h : eventKeySet events = statKeySet stats
  · rw [if_neg (by simp [h])]
    exact ⟨⟨fun _ => h, fun _ => ⟨_, rfl⟩⟩, fun hne => absurd h hne⟩
  · rw [if_pos h]
    refine ⟨⟨?_, fun he => absurd he h⟩, fun _ => rfl⟩
    rintro ⟨w, hw⟩
    cases hw

def statsMis : List (String × StatEntry) :=
  [("A", { mean := .num 0, std_dev := 1 }), ("C", { mean := .num 0, std_dev := 1 })]

theorem c7_validate_mismatch_witness :
    eventKeySet eventsW ≠ statKeySet statsMis ∧
    validate_configuration eventsW statsMis =
      .error (.mismatch ((eventKeySet eventsW \ statKeySet statsMis) ∪
                         (statKeySet statsMis \ eventKeySet eventsW))) :=
  ⟨by decide, (c7_validate_mismatch eventsW statsMis).2 (by decide)⟩

/-- C9: a Discrete event whose stats mean is non-numeric produces only a
warning from `validate_configuration` — the call still returns
successfully (given matching key sets, which are checked first). -/
theorem c9_discrete_nonnumeric_mean_warns :
    ∀ (events : List (String × EventDef)) (stats : List (String × StatEntry))
      (e : String) (p : EventDef),
      eventKeySet events = statKeySet stats →
      (e, p) ∈ events → p.type = "D" → (statOf stats e).mean = MeanVal.nonNum →
      ∃ w, validate_configuration events stats = .ok w ∧
        ("Warning: Discrete event " ++ e ++ " has non-integer mean") ∈ w := by
  intro events stats e p hkeys hmem htype hmean
  unfold validate_configuration
  rw [if_neg (by simp [hkeys])]
  refine ⟨_, rfl, ?_⟩
  exact List.mem_filterMap.mpr ⟨(e, p), hmem, by simp [htype, hmean]⟩

def statsNN : List (String × StatEntry) := [("A", { mean := .nonNum, std_dev := 1 })]

theorem c9_discrete_nonnumeric_mean_warns_witness :
    eventKeySet [("A", evD)] = statKeySet statsNN ∧
    ∃ w, validate_configuration [("A", evD)] statsNN = .ok w ∧
      ("Warning: Discrete event " ++ "A" ++ " has non-integer mean") ∈ w :=
  ⟨by decide,
    c9_discrete_nonnumeric_mean_warns [("A", evD)] statsNN "A" evD (by decide)
      (List.mem_singleton.mpr rfl) rfl rfl⟩

/-- C8: a submission that fails to parse or validate yields exactly one
failure report, after which the loop's behaviour is that of the remaining
inputs — the orchestrator is still in `Monitoring` awaiting the next
profile or the termination signal, and the failure alone never moves it
to `Terminated`. -/
theorem c8_failed_submission_keeps_monitoring :
    ∀ (events : List (String × EventDef)) (baseline : String → Stat) (days : ℕ)
      (s : Submission) (rest : List Submission),
      subFails events s = true →
      run_monitoring_phase events baseline days (s :: rest) =
        (MonOutcome.failed :: (run_monitoring_phase events baseline days rest).1,
         (run_monitoring_phase events baseline days rest).2) ∧
      (run_monitoring_phase events baseline days [s]).2 = Phase.Monitoring := by
  intro events baseline days s rest hf
  cases s with
  | quit => simp [subFails] at hf
  | parseFail => exact ⟨rfl, rfl⟩
  | profile stats draw =>
    simp only [subFails] at hf
    cases hval : validate_configuration events stats with
    | error e =>
      constructor
      · show (match validate_configuration events stats with
          | .error _ => (MonOutcome.failed :: (run_monitoring_phase events baseline days rest).1,
              (run_monitoring_phase events baseline days rest).2)
          | .ok _ => _) = _
        rw [hval]
      · show (match validate_configuration events stats with
          | .error _ => (MonOutcome.failed :: (run_monitoring_phase events baseline days []).1,
              (run_monitoring_phase events baseline days []).2)
          | .ok _ => _).2 = _
        rw [hval]
        rfl
    | ok w => rw [hval] at hf; simp at hf

theorem c8_failed_submission_keeps_monitoring_witness :
    subFails [] Submission.parseFail = true ∧
    run_monitoring_phase [] baseW 1 [Submission.parseFail, Submission.quit] =
      (MonOutcome.failed :: (run_monitoring_phase [] baseW 1 [Submission.quit]).1,
       (run_monitoring_phase [] baseW 1 [Submission.quit]).2) ∧
    (run_monitoring_phase [] baseW 1 [Submission.parseFail]).2 = Phase.Monitoring :=
  ⟨rfl, c8_failed_submission_keeps_monitoring [] baseW 1 Submission.parseFail
    [Submission.quit] rfl⟩

theorem intClamp_bounds (p : EventDef) (v : ℤ) {m M : ℚ}
    (hm : p.min = some m) (hM : p.max = some M) (h : m ≤ M) :
    truncQ m ≤ intClamp p v ∧ intClamp p v ≤ truncQ M := by
  unfold intClamp
  rw [hm, hM]
  exact ⟨le_min (le_max_right _ _) (truncQ_mono h), min_le_right _ _⟩

theorem ratClamp_bounds (p : EventDef) (v : ℚ) {m M : ℚ}
    (hm : p.min = some m) (hM : p.max = some M) (h : m ≤ M) :
    m ≤ ratClamp p v ∧ ratClamp p v ≤ M := by
  unfold ratClamp
  rw [hm, hM]
  exact ⟨le_min (le_max_right _ _) h, min_le_right _ _⟩

/-- C3: whenever an event has both bounds set (consistently, `min ≤ max`),
every value `generate_daily_events` produces for it on every day lies
between the bounds — for Discrete events between the int-cast bounds,
for Continuous events between the bounds as given. -/
theorem c3_clamping :
    ∀ (events : List (String × EventDef)) (draw : ℕ → String → ℚ) (days : ℕ),
      (events.map Prod.fst).Nodup →
      ∀ day ∈ generate_daily_events events draw days, ∀ x ∈ day,
      ∀ p m M, (x.1, p) ∈ events → p.min = some m → p.max = some M → m ≤ M →
        (p.type = "D" → ((truncQ m : ℤ) : ℚ) ≤ x.2 ∧ x.2 ≤ ((truncQ M : ℤ) : ℚ)) ∧
        (p.type ≠ "D" → m ≤ x.2 ∧ x.2 ≤ M) := by
  intro events draw days hnd day hday x hx p m M hp hm hM hmM
  rcases mem_generate hday hx with ⟨i, hi, q, hq, rfl⟩
  have hpq : q.2 = p := nodup_keys_eq hnd (by exact hq) hp
  subst hpq
  constructor
  · intro htype
    have hb := intClamp_bounds q.2 (truncQ (draw i q.1)) hm hM hmM
    simp only [genValue, if_pos htype]
    exact ⟨by exact_mod_cast hb.1, by exact_mod_cast hb.2⟩
  · intro htype
    have hb := ratClamp_bounds q.2 (round2 (draw i q.1)) hm hM hmM
    simp only [genValue, if_neg htype]
    exact hb

theorem c3_clamping_witness :
    ((([("A", evD)] : List (String × EventDef)).map Prod.fst).Nodup) ∧
    (((truncQ 0 : ℤ) : ℚ) ≤ (genValue evD 100) ∧
      (genValue evD 100) ≤ ((truncQ 10 : ℤ) : ℚ)) :=
  ⟨by simp,
    (c3_clamping [("A", evD)] (fun _ _ => 100) 1 (by simp)
      [("A", genValue evD 100)]
      (by simp [generate_daily_events])
      ("A", genValue evD 100) (List.mem_singleton.mpr rfl)
      evD 0 10 (List.mem_singleton.mpr rfl) rfl rfl (by norm_num)).1 rfl⟩

/-- The clamped continuous value is the (rounded) sample or one of the
set bounds. -/
theorem ratClamp_cases (p : EventDef) (v : ℚ) :
    ratClamp p v = v ∨ (∃ m, p.min = some m ∧ ratClamp p v = m) ∨
      (∃ M, p.max = some M ∧ ratClamp p v = M) := by
  unfold ratClamp
  cases hm : p.min with
  | none =>
    cases hM : p.max with
    | none => exact Or.inl rfl
    | some M =>
      rcases min_choice v M with h | h
      · exact Or.inl h
      · exact Or.inr (Or.inr ⟨M, rfl, h⟩)
  | some m =>
    cases hM : p.max with
    | none =>
      rcases max_choice v m with h | h
      · exact Or.inl h
      · exact Or.inr (Or.inl ⟨m, rfl, h⟩)
    | some M =>
      rcases min_choice (max v m) M with h | h
      · rcases max_choice v m with h2 | h2
        · exact Or.inl (h.trans h2)
        · exact Or.inr (Or.inl ⟨m, rfl, h.trans h2⟩)
      · exact Or.inr (Or.inr ⟨M, rfl, h⟩)

theorem round2_two_decimals (x : ℚ) : ∃ z : ℤ, round2 x = (z : ℚ) / 100 :=
  ⟨roundHalfEven (100 * x), rfl⟩

/-- C4 (amended): a Continuous event's generated value has at most 2
decimal digits provided its set clamp bounds do — the value is either the
2-decimal-rounded sample or one of the bounds, so a bound with finer
resolution leaks through the clamp verbatim. -/
theorem c4_continuous_two_decimals :
    ∀ (events : List (String × EventDef)) (draw : ℕ → String → ℚ) (days : ℕ),
      (events.map Prod.fst).Nodup →
      ∀ day ∈ generate_daily_events events draw days, ∀ x ∈ day,
      ∀ p, (x.1, p) ∈ events → p.type ≠ "D" →
      (∀ m, p.min = some m → ∃ z : ℤ, m = (z : ℚ) / 100) →
      (∀ M, p.max = some M → ∃ z : ℤ, M = (z : ℚ) / 100) →
      ∃ z : ℤ, x.2 = (z : ℚ) / 100 := by
  intro events draw days hnd day hday x hx p hp htype hmin hmax
  rcases mem_generate hday hx with ⟨i, hi, q, hq, rfl⟩
  have hpq : q.2 = p := nodup_keys_eq hnd (by exact hq) hp
  subst hpq
  simp only [genValue, if_neg htype]
  rcases ratClamp_cases q.2 (round2 (draw i q.1)) with h | ⟨m, hm, h⟩ | ⟨M, hM, h⟩
  · rw [h]; exact round2_two_decimals _
  · rw [h]; exact hmin m hm
  · rw [h]; exact hmax M hM

def evCex : EventDef := { type := "C", min := some (1/8), max := none, weight := 1 }

/-- C4 counterexample: with a Continuous event clamped below at
`min = 0.125` and a Gaussian sample of 0, the generated value is exactly
`0.125`, which has three decimal digits. -/
theorem c4_counterexample :
    generate_daily_events [("A", evCex)] (fun _ _ => 0) 1 = [[("A", (1 : ℚ)/8)]] ∧
    ¬ ∃ z : ℤ, ((1 : ℚ)/8) = (z : ℚ) / 100 := by
  constructor
  · have h18 : genValue evCex 0 = 1/8 := by
      unfold genValue
      rw [if_neg (by decide : ¬ (evCex.type = "D"))]
      norm_num [evCex, ratClamp, round2, roundHalfEven, max_def]
    simp [generate_daily_events, List.range_succ, h18]
  · rintro ⟨z, hz⟩
    have h : (100 : ℚ) = 8 * (z : ℚ) := by field_simp at hz; linarith
    have h2 : (100 : ℤ) = 8 * z := by exact_mod_cast h
    omega

def evC50 : EventDef := { type := "C", min := some (1/2), max := none, weight := 1 }

theorem c4_continuous_two_decimals_witness :
    ((([("A", evC50)] : List (String × EventDef)).map Prod.fst).Nodup) ∧
    (∃ z : ℤ, (genValue evC50 (7/3)) = (z : ℚ) / 100) :=
  ⟨by simp,
    c4_continuous_two_decimals [("A", evC50)] (fun _ _ => 7/3) 1 (by simp)
      [("A", genValue evC50 (7/3))] (by simp [generate_daily_events])
      ("A", genValue evC50 (7/3)) (List.mem_singleton.mpr rfl)
      evC50 (List.mem_singleton.mpr rfl) (by simp [evC50])
      (by intro m hm
          simp only [evC50, Option.some.injEq] at hm
          subst hm
          exact ⟨50, by norm_num⟩)
      (by intro M hM; simp [evC50] at hM)⟩

/-- C5: a Discrete event's generated value is always the integer obtained
by truncating the Gaussian sample toward zero and then clamping with the
int-cast bounds; the first conjunct pins the truncation down as
toward-zero truncation (the magnitude is floored, never rounded up). -/
theorem c5_discrete_truncation :
    (∀ q : ℚ, |truncQ q| = ⌊|q|⌋) ∧
    ∀ (events : List (String × EventDef)) (draw : ℕ → String → ℚ) (days : ℕ),
      (events.map Prod.fst).Nodup →
      ∀ day ∈ generate_daily_events events draw days, ∀ x ∈ day,
      ∀ p, (x.1, p) ∈ events → p.type = "D" →
      ∃ i < days, ∃ z : ℤ, x.2 = (z : ℚ) ∧ z = intClamp p (truncQ (draw i x.1)) := by
  constructor
  · exact truncQ_abs
  · intro events draw days hnd day hday x hx p hp htype
    rcases mem_generate hday hx with ⟨i, hi, q, hq, rfl⟩
    have hpq : q.2 = p := nodup_keys_eq hnd (by exact hq) hp
    subst hpq
    refine ⟨i, hi, intClamp q.2 (truncQ (draw i q.1)), ?_, rfl⟩
    simp [genValue, if_pos htype]

theorem c5_discrete_truncation_witness :
    ((([("A", evD)] : List (String × EventDef)).map Prod.fst).Nodup) ∧
    (∃ i < 1, ∃ z : ℤ,
      (genValue evD (5/2)) = (z : ℚ) ∧ z = intClamp evD (truncQ ((fun _ _ => (5:ℚ)/2) i "A"))) :=
  ⟨by simp,
    c5_discrete_truncation.2 [("A", evD)] (fun _ _ => 5/2) 1 (by simp)
      [("A", genValue evD (5/2))] (by simp [generate_daily_events])
      ("A", genValue evD (5/2)) (List.mem_singleton.mpr rfl)
      evD (List.mem_singleton.mpr rfl) rfl⟩

/-- C1 (amended): with every baseline `std_dev` nonzero, each verdict's
stored score is the weighted-deviation sum of its day ROUNDED to 2
decimal places, and its alert flag is set exactly when the exact
(unrounded) sum reaches the threshold. -/
theorem c1_score_and_alert :
    ∀ (b : String → Stat) (events : List (String × EventDef))
      (log_data : List (List (String × ℚ))),
      (∀ e, (b e).std_dev ≠ 0) →
      ∀ v ∈ detect_anomalies b events log_data,
      ∃ data ∈ log_data,
        v.anomaly_counter =
          round2 ((data.map fun p =>
            |p.2 - (b p.1).mean| / (b p.1).std_dev * ((weightOf events p.1 : ℤ) : ℚ)).sum) ∧
        (v.alert = true ↔
          ((thresholdOf events : ℤ) : ℚ) ≤
            (data.map fun p =>
              |p.2 - (b p.1).mean| / (b p.1).std_dev * ((weightOf events p.1 : ℤ) : ℚ)).sum) := by
  intro b events log_data hstd v hv
  rcases mem_detectFrom hv with ⟨day, data, hdata, rfl⟩
  have hc := mkVerdict_counter b events data
  refine ⟨data, hdata, ?_, ?_⟩
  · simp only [mkVerdict]
    rw [hc]
    rfl
  · simp only [mkVerdict, decide_eq_true_eq]
    rw [hc]
    exact Iff.rfl

def eventsCex1 : List (String × EventDef) :=
  [("A", { type := "C", min := none, max := none, weight := 1 })]

def baseCex1 : String → Stat := fun _ => { mean := 0, std_dev := 8 }

/-- C1 counterexample: one event of weight 1, baseline mean 0 and std_dev
8, observed value 1.  The exact weighted-deviation sum is 1/8 = 0.125, but
the verdict's stored score is `round(0.125, 2) = 0.12` — the stored score
does NOT equal the sum the claim prescribes (every std_dev is nonzero, so
the claim's precondition holds). -/
theorem c1_counterexample :
    ((detect_anomalies baseCex1 eventsCex1 [[("A", 1)]]).map fun v => v.anomaly_counter)
        = [(3 : ℚ)/25] ∧
    (([(("A" : String), (1 : ℚ))]).map fun p =>
      |p.2 - (baseCex1 p.1).mean| / (baseCex1 p.1).std_dev *
        ((weightOf eventsCex1 p.1 : ℤ) : ℚ)).sum = 1/8 ∧
    ((3 : ℚ)/25) ≠ 1/8 ∧ (∀ e, (baseCex1 e).std_dev ≠ 0) := by
  refine ⟨?_, ?_, by norm_num, fun e => by norm_num [baseCex1]⟩
  · have hsum : ([(("A" : String), (1 : ℚ))].foldl
        (fun acc p => acc + devWeighted baseCex1 eventsCex1 p) 0) = 1/8 := by
      norm_num [devWeighted, baseCex1, eventsCex1, weightOf, dictGet]
    simp only [detect_anomalies, detectFrom, List.map_cons, List.map_nil, mkVerdict, hsum]
    norm_num [round2, roundHalfEven]
  · norm_num [baseCex1, eventsCex1, weightOf, dictGet]

theorem c1_score_and_alert_witness :
    (∀ e, (baseCex1 e).std_dev ≠ 0) ∧
    ∀ v ∈ detect_anomalies baseCex1 eventsCex1 [[("A", 1)]],
      ∃ data ∈ [[(("A" : String), (1 : ℚ))]],
        v.anomaly_counter =
          round2 ((data.map fun p =>
            |p.2 - (baseCex1 p.1).mean| / (baseCex1 p.1).std_dev *
              ((weightOf eventsCex1 p.1 : ℤ) : ℚ)).sum) ∧
        (v.alert = true ↔
          ((thresholdOf eventsCex1 : ℤ) : ℚ) ≤
            (data.map fun p =>
              |p.2 - (baseCex1 p.1).mean| / (baseCex1 p.1).std_dev *
                ((weightOf eventsCex1 p.1 : ℤ) : ℚ)).sum) :=
  ⟨fun e => by norm_num [baseCex1],
    c1_score_and_alert baseCex1 eventsCex1 [[("A", 1)]] (fun e => by norm_num [baseCex1])⟩

def eventsR : List (String × EventDef) :=
  [("A", { type := "C", min := none, max := none, weight := 1 })]

def baseR : String → Stat := fun _ => { mean := 0, std_dev := 1 }

/-- C10 counterexample: the claimed discrepancy direction is impossible.
Because the threshold is an integer (twice an integer weight sum) and
rounding to 2 decimals never drops a value below an integer bound it
reached, an alerting verdict can never store a score strictly below its
stored threshold — there is no such input at all. -/
theorem c10_counterexample :
    (∃ (b : String → Stat) (events : List (String × EventDef))
       (log_data : List (List (String × ℚ))) (v : Verdict),
       v ∈ detect_anomalies b events log_data ∧
       v.alert = true ∧ v.anomaly_counter < v.threshold) ↔ False := by
  constructor
  · rintro ⟨b, events, log_data, v, hv, halert, hlt⟩
    rcases mem_detectFrom hv with ⟨day, data, _, rfl⟩
    simp only [mkVerdict] at halert hlt
    have hle := of_decide_eq_true halert
    have hge := round2_int_le (thresholdOf events)
      (data.foldl (fun acc p => acc + devWeighted b events p) 0) hle
    linarith
  · exact False.elim

/-- C10 (amended): the alert flag is decided by comparing the exact
unrounded weighted-deviation sum to the threshold while the stored score
is that sum rounded to 2 decimals; consequently an alerting verdict's
stored score is never strictly below its stored threshold, and instead
for some inputs the verdict is NOT an alert although its stored score
equals its stored threshold. -/
theorem c10_rounded_score_alert :
    (∀ (b : String → Stat) (events : List (String × EventDef))
       (log_data : List (List (String × ℚ))) (v : Verdict),
       v ∈ detect_anomalies b events log_data →
       ∃ data ∈ log_data,
         v.anomaly_counter = round2 ((data.map (devWeighted b events)).sum) ∧
         (v.alert = true ↔ v.threshold ≤ (data.map (devWeighted b events)).sum) ∧
         (v.alert = true → v.threshold ≤ v.anomaly_counter)) ∧
    (∃ v ∈ detect_anomalies baseR eventsR [[("A", 1999/1000)]],
       v.alert = false ∧ v.anomaly_counter = v.threshold) := by
  constructor
  · intro b events log_data v hv
    rcases mem_detectFrom hv with ⟨day, data, hdata, rfl⟩
    have hc := mkVerdict_counter b events data
    refine ⟨data, hdata, ?_, ?_, ?_⟩
    · simp only [mkVerdict]
      rw [hc]
    · simp only [mkVerdict, decide_eq_true_eq]
      rw [hc]
    · intro halert
      simp only [mkVerdict] at halert ⊢
      exact round2_int_le (thresholdOf events) _ (of_decide_eq_true halert)
  · refine ⟨mkVerdict baseR eventsR 1 [("A", 1999/1000)],
      by simp [detect_anomalies, detectFrom], ?_, ?_⟩
    · have : ¬ (((thresholdOf eventsR : ℤ) : ℚ) ≤
          ([(("A" : String), (1999 : ℚ)/1000)].foldl
            (fun acc p => acc + devWeighted baseR eventsR p) 0)) := by
        norm_num [thresholdOf, eventsR, devWeighted, baseR, weightOf, dictGet]
        rw [abs_of_nonneg (by norm_num : (0 : ℚ) ≤ 1999/1000)]
        norm_num
      simp only [mkVerdict]
      exact decide_eq_false this
    · have hsum : ([(("A" : String), (1999 : ℚ)/1000)].foldl
          (fun acc p => acc + devWeighted baseR eventsR p) 0) = 1999/1000 := by
        norm_num [devWeighted, baseR, eventsR, weightOf, dictGet]
      simp only [mkVerdict, hsum]
      norm_num [round2, roundHalfEven, thresholdOf, eventsR]

theorem c10_rounded_score_alert_witness :
    ∃ data ∈ [[(("A" : String), (1 : ℚ))]],
      (mkVerdict baseCex1 eventsCex1 1 [("A", 1)]).anomaly_counter =
        round2 ((data.map (devWeighted baseCex1 eventsCex1)).sum) ∧
      ((mkVerdict baseCex1 eventsCex1 1 [("A", 1)]).alert = true ↔
        (mkVerdict baseCex1 eventsCex1 1 [("A", 1)]).threshold ≤
          (data.map (devWeighted baseCex1 eventsCex1)).sum) ∧
      ((mkVerdict baseCex1 eventsCex1 1 [("A", 1)]).alert = true →
        (mkVerdict baseCex1 eventsCex1 1 [("A", 1)]).threshold ≤
          (mkVerdict baseCex1 eventsCex1 1 [("A", 1)]).anomaly_counter) :=
  c10_rounded_score_alert.1 baseCex1 eventsCex1 [[("A", 1)]]
    (mkVerdict baseCex1 eventsCex1 1 [("A", 1)])
    (by simp [detect_anomalies, detectFrom])

theorem eventValues_length (log_data : List (List (String × ℚ))) (e : String) :
    (eventValues log_data e).length = log_data.length :=
  List.length_map _ _

/-- C6: for a non-empty day-record sequence over one key set,
`calculate_statistics` reports, for each event, the arithmetic mean of
its values and a nonnegative standard deviation whose square is the sum
of squared deviations divided by N (the number of days) — the population
convention, not N−1. -/
theorem c6_population_statistics :
    ∀ (log_data : List (List (String × ℚ))),
      log_data ≠ [] →
      (∀ day ∈ log_data, day.map Prod.fst = (log_data.headI).map Prod.fst) →
      ∀ e s, (e, s) ∈ calculate_statistics log_data →
        s.mean = (((eventValues log_data e).map fun v => (v : ℝ)).sum) /
          (log_data.length : ℝ) ∧
        0 ≤ s.std_dev ∧
        s.std_dev ^ 2 =
          (((eventValues log_data e).map fun v => ((v : ℝ) - s.mean) ^ 2).sum) /
            (log_data.length : ℝ) := by
  intro log_data hne hshare e s hmem
  unfold calculate_statistics at hmem
  rcases List.mem_map.mp hmem with ⟨p, hp, heq⟩
  cases heq
  have hnn : (0 : ℝ) ≤
      (((eventValues log_data p.1).map fun v =>
        ((v : ℝ) - (((eventValues log_data p.1).map fun v => (v : ℝ)).sum /
          ((eventValues log_data p.1).length : ℝ))) ^ 2).sum) /
        ((eventValues log_data p.1).length : ℝ) := by
    apply div_nonneg
    · apply List.sum_nonneg
      intro x hx
      rcases List.mem_map.mp hx with ⟨v, _, rfl⟩
      positivity
    · positivity
  refine ⟨?_, Real.sqrt_nonneg _, ?_⟩
  · rw [eventValues_length]
  · show (Real.sqrt _) ^ 2 = _
    rw [Real.sq_sqrt hnn, eventValues_length]

theorem c6_population_statistics_witness :
    ([[(("A" : String), (3 : ℚ))]] : List (List (String × ℚ))) ≠ [] ∧
    ∀ e s, (e, s) ∈ calculate_statistics [[("A", 3)]] →
      s.mean = (((eventValues [[("A", 3)]] e).map fun v => (v : ℝ)).sum) /
        (([[(("A" : String), (3 : ℚ))]] : List (List (String × ℚ))).length : ℝ) ∧
      0 ≤ s.std_dev ∧
      s.std_dev ^ 2 =
        (((eventValues [[("A", 3)]] e).map fun v => ((v : ℝ) - s.mean) ^ 2).sum) /
          (([[(("A" : String), (3 : ℚ))]] : List (List (String × ℚ))).length : ℝ) :=
  ⟨by simp,
    fun e s h => c6_population_statistics [[("A", 3)]] (by simp) (by simp) e s h⟩
